import Mathlib

/-!
Verification of the Neko-Oracle-RWA publisher pipeline.

The only executable pipeline code in the repository is the `SorobanPublisher`
class in `src/apps/frontend/app/layout.tsx` (lines 29-293): `publishToOracle`,
the `retry` wrapper, and `waitForTransaction`. This file gives a shallow
embedding of those functions. Network effects are modelled by explicit
environments: each retry attempt is given an `AttemptEnv` describing the
outcome of the build/sign/send sequence and the per-poll ledger status, and
the functions additionally return the list of on-chain submission calls they
perform, so that frame and idempotency properties can be stated.

The Aggregator component (`apps/aggregator`) has no source in the repository
(only a README); it is modelled from the spec where a claim requires it.
-/

namespace NekoOracle

/-! ## Data model (from `layout.tsx`) -/

/-- The `PublishParams` interface (layout.tsx lines 42-49). `proof` and
`proofPublicInputs` are optional hex-encoded strings. -/
structure PublishParams where
  assetId : String
  price : Int
  timestamp : Int
  commit : String
  proof : Option String
  proofPublicInputs : Option String
deriving DecidableEq, Repr

/-- The `PublishResult` interface (layout.tsx lines 51-54). -/
structure PublishResult where
  txHash : String
  success : Bool
deriving DecidableEq, Repr

/-- The `Asset` enum of the generated oracle bindings; `toAsset` (line 104)
always builds the `Other` variant. -/
inductive Asset where
  | Other (id : String)
  | Stellar (addr : String)
deriving DecidableEq, Repr

/-- `toAsset` (layout.tsx lines 104-106): wrap the asset id in the
`Other` variant. -/
def toAsset (assetId : String) : Asset := Asset.Other assetId

/-- The errors `publishToOracle` and `waitForTransaction` can throw:
transport errors from the SDK, the explicit `throw new Error` sites at
lines 243, 284 and 289 of layout.tsx. -/
inductive PubError where
  | transport (msg : String)
  | noHash
  | txFailedOnChain
  | confirmationTimeout
deriving DecidableEq, Repr

/-- The `rpc.Api.GetTransactionStatus` enum of the Stellar SDK, as consumed
by `waitForTransaction` (lines 274, 282, 287). -/
inductive TxStatus where
  | NOT_FOUND
  | SUCCESS
  | FAILED
deriving DecidableEq, Repr

/-- JavaScript truthiness of an optional string field: `undefined` and the
empty string are falsy, every other string is truthy. This is the test the
source performs at layout.tsx line 158 (`params.proof && params.proofPublicInputs`). -/
def truthy : Option String → Bool
  | none => false
  | some s => s != ""

/-! ## Hex round-trip for the mock transaction hash

The proof branch (layout.tsx line 213) computes
`"zk_" + Buffer.from(params.proof.slice(0, 32), 'hex').toString('hex')`.
`Buffer.from(str, 'hex')` decodes consecutive hex-digit pairs and stops at
the first invalid pair or leftover digit; `toString('hex')` re-encodes the
bytes in lowercase. -/

/-- Value of a hexadecimal digit, if any. -/
def hexDigitVal (c : Char) : Option Nat :=
  if '0' ≤ c ∧ c ≤ '9' then some (c.toNat - '0'.toNat)
  else if 'a' ≤ c ∧ c ≤ 'f' then some (c.toNat - 'a'.toNat + 10)
  else if 'A' ≤ c ∧ c ≤ 'F' then some (c.toNat - 'A'.toNat + 10)
  else none

/-- Decode hex-digit pairs into bytes, stopping at the first invalid pair or
odd leftover digit, as `Buffer.from(-, 'hex')` does. -/
def hexDecode : List Char → List Nat
  | c1 :: c2 :: rest =>
    match hexDigitVal c1, hexDigitVal c2 with
    | some h, some l => (16 * h + l) :: hexDecode rest
    | _, _ => []
  | _ => []

/-- Lowercase hex digit for a value below 16. -/
def hexDigitChar (n : Nat) : Char :=
  if n < 10 then Char.ofNat (Char.toNat '0' + n)
  else Char.ofNat (Char.toNat 'a' + (n - 10))

/-- Encode bytes as lowercase hex, as `Buffer.toString('hex')` does. -/
def hexEncode : List Nat → List Char
  | [] => []
  | b :: rest => hexDigitChar (b / 16) :: hexDigitChar (b % 16) :: hexEncode rest

/-- The mock transaction hash built at layout.tsx line 213: the string
`zk_` followed by the hex re-encoding of the bytes decoded from the first
32 characters of the proof string. -/
def mockTxHash (proof : String) : String :=
  "zk_" ++ String.mk (hexEncode (hexDecode (proof.toList.take 32)))

/-! ## The confirmation wait (`waitForTransaction`, layout.tsx lines 266-293)

The ledger is modelled by a function `getTx : Nat → TxStatus` giving the
status returned by the i-th `server.getTransaction` call. The source issues
one initial query, then loops while the status is `NOT_FOUND` and
`attempts < maxAttempts = 20`, issuing one more query and incrementing
`attempts` per iteration. The loop is written with explicit fuel; fuel
`maxAttempts` at `attempts = 0` can never be exhausted before the
`attempts < maxAttempts` guard fails, so the embedding coincides with the
source loop (`waitLoop_fuel_stable` below makes this precise). -/

/-- `const maxAttempts = 20` (layout.tsx line 271). -/
def maxAttempts : Nat := 20

/-- The polling loop of `waitForTransaction` (lines 273-280): state is the
last received status and the `attempts` counter; each iteration queries the
next status. Returns the final status and the final value of `attempts`. -/
def waitLoop (getTx : Nat → TxStatus) : Nat → TxStatus → Nat → TxStatus × Nat
  | 0, res, attempts => (res, attempts)
  | fuel + 1, res, attempts =>
    if res = TxStatus.NOT_FOUND ∧ attempts < maxAttempts then
      waitLoop getTx fuel (getTx (attempts + 1)) (attempts + 1)
    else (res, attempts)

/-- `waitForTransaction` (lines 266-293): initial query, polling loop, then
`FAILED` throws "Transaction failed on-chain", a final `NOT_FOUND` throws
"Transaction confirmation timeout", anything else resolves successfully. -/
def waitForTransaction (getTx : Nat → TxStatus) : Except PubError Unit :=
  let r := waitLoop getTx maxAttempts (getTx 0) 0
  if r.1 = TxStatus.FAILED then Except.error PubError.txFailedOnChain
  else if r.1 = TxStatus.NOT_FOUND then Except.error PubError.confirmationTimeout
  else Except.ok ()

/-- Number of `getTransaction` queries a run of `waitForTransaction` issues:
one initial query plus one per loop iteration, i.e. the final `attempts`
value plus one. -/
def waitQueries (getTx : Nat → TxStatus) : Nat :=
  (waitLoop getTx maxAttempts (getTx 0) 0).2 + 1

/-! ## The retry wrapper (`retry`, layout.tsx lines 111-125)

The wrapped closure takes no arguments in the source; the environment's
response to the n-th invocation is modelled by indexing the function with
the attempt number. `retries` starts at `maxRetries = 3` and the call is
re-attempted while `retries > 0`, so the function body runs at most
`maxRetries + 1` times and on exhaustion the error of the last attempt is
re-thrown. -/

/-- `maxRetries = 3` (layout.tsx line 75). -/
def maxRetries : Nat := 3

/-- The `retry` wrapper (lines 111-125): run the function; on success return
its value; on error re-throw it if `retries` is exhausted, otherwise recurse
with `retries - 1`. `attempt` numbers the invocations. -/
def retry {α : Type} (fn : Nat → Except PubError α) (retries : Nat) (attempt : Nat) :
    Except PubError α :=
  match fn attempt with
  | Except.ok a => Except.ok a
  | Except.error e =>
    match retries with
    | 0 => Except.error e
    | r + 1 => retry fn r (attempt + 1)

/-! ## publishToOracle (layout.tsx lines 127-261)

One retry attempt of the body is `publishAttempt`. Its environment
`AttemptEnv` gives the outcome of the build/sign/send sequence
(`sendResult`: a transport error, a response without a hash, or a
transaction hash) and the ledger statuses seen by the confirmation wait.
Each attempt also reports the list of on-chain submission calls it makes,
together with the exact `PublishParams` value used to build each call. -/

/-- The two contract entry points of the oracle call surface. -/
inductive EntryPoint where
  | set_asset_price
  | set_price_with_proof
deriving DecidableEq, Repr

/-- A record of one on-chain submission call: the entry point invoked, the
arguments passed, and the `PublishParams` value the call was built from. -/
structure SubmitCall where
  entry : EntryPoint
  asset : Asset
  price : Int
  timestamp : Int
  paramsUsed : PublishParams
deriving DecidableEq, Repr

/-- Environment of a single retry attempt: outcome of
`set_asset_price` + `signAndSend` + `send` (`Except.ok none` models a send
response carrying no hash, line 240-243), and the ledger status per
confirmation poll. -/
structure AttemptEnv where
  sendResult : Except PubError (Option String)
  txStatus : Nat → TxStatus

/-- The legacy submission call built at layout.tsx lines 222-226 from a
given `PublishParams` value. -/
def legacyCall (params : PublishParams) : SubmitCall :=
  { entry := EntryPoint.set_asset_price
    asset := toAsset params.assetId
    price := params.price
    timestamp := params.timestamp
    paramsUsed := params }

/-- One attempt of the closure passed to `retry` by `publishToOracle`
(layout.tsx lines 128-260). If `params.proof && params.proofPublicInputs`
is truthy, the proof branch (lines 158-217) performs no contract call — the
`set_price_with_proof` invocation is commented out — and returns a mock
success whose hash re-encodes the first 16 proof bytes. Otherwise the
legacy branch (lines 218-255) calls `set_asset_price`, signs and sends,
requires a hash, and waits for confirmation; its errors are re-thrown to
the retry wrapper (lines 256-259). -/
def publishAttempt (params : PublishParams) (env : AttemptEnv) :
    Except PubError PublishResult × List SubmitCall :=
  if truthy params.proof && truthy params.proofPublicInputs then
    (Except.ok { txHash := mockTxHash (params.proof.getD ""), success := true }, [])
  else
    let call := legacyCall params
    match env.sendResult with
    | Except.error e => (Except.error e, [call])
    | Except.ok none => (Except.error PubError.noHash, [call])
    | Except.ok (some h) =>
      match waitForTransaction env.txStatus with
      | Except.error e => (Except.error e, [call])
      | Except.ok _ => (Except.ok { txHash := h, success := true }, [call])

/-- The `retry` wrapper instrumented with the submission-call trace: same
recursion as `retry`, accumulating the calls of every attempt made. -/
def retryRun (fn : Nat → Except PubError PublishResult × List SubmitCall)
    (retries : Nat) (attempt : Nat) : Except PubError PublishResult × List SubmitCall :=
  match fn attempt with
  | (Except.ok a, tr) => (Except.ok a, tr)
  | (Except.error e, tr) =>
    match retries with
    | 0 => (Except.error e, tr)
    | r + 1 =>
      let next := retryRun fn r (attempt + 1)
      (next.1, tr ++ next.2)

/-- `publishToOracle` (layout.tsx lines 127-261): the whole
submit-and-confirm closure run under the retry wrapper, starting with
`retries = maxRetries`. Returns the caller-visible outcome and the trace of
submission calls across all attempts. -/
def publishToOracle (params : PublishParams) (env : Nat → AttemptEnv) :
    Except PubError PublishResult × List SubmitCall :=
  retryRun (fun n => publishAttempt params (env n)) maxRetries 0

/-! ## Aggregator (modelled from the spec)

The repository's `apps/aggregator` directory contains only a README; no
aggregator source exists under `src/`. The definitions below are therefore
modelled from spec §4.2. -/

/-- Modelled from the spec: a `PriceSample` (spec §3) — symbol, source
identifier, fixed-point price, observed-at timestamp, optional nonce. -/
structure PriceSample where
  symbol : String
  source : String
  price : Int
  observedAt : Int
  nonce : Option Nat
deriving DecidableEq, Repr

/-- Modelled from the spec: aggregator configuration — minimum quorum of
distinct non-stale sources, staleness window, and the outlier threshold as
a relative deviation in basis points (spec §4.2 steps 1 and 3). -/
structure AggregatorConfig where
  quorum : Nat
  stalenessWindow : Int
  outlierThresholdBp : Nat
deriving DecidableEq, Repr

/-- Modelled from the spec: a `ConsensusPrice` (spec §3) — symbol,
fixed-point price, timestamp, number of contributing samples, dispersion
metric. -/
structure ConsensusPrice where
  symbol : String
  price : Int
  timestamp : Int
  numSamples : Nat
  dispersion : Nat
deriving DecidableEq, Repr

/-- Modelled from the spec: result of `aggregate` — a consensus price or
the recoverable `InsufficientData` error (spec §4.2). -/
inductive AggregateResult where
  | consensus (c : ConsensusPrice)
  | insufficientData
deriving DecidableEq, Repr

/-- Modelled from the spec: a sample is non-stale when its observed-at
timestamp is within the staleness window of the current time (spec §4.1). -/
def isFresh (cfg : AggregatorConfig) (now : Int) (s : PriceSample) : Bool :=
  now - s.observedAt ≤ cfg.stalenessWindow

/-- Distinct source identifiers of a sample list. -/
def distinctSources (samples : List PriceSample) : List String :=
  (samples.map PriceSample.source).dedup

/-- Median of a price list: middle element of the sorted list (upper
middle for even length; the spec leaves the even-length policy open). -/
def medianOf (prices : List Int) : Int :=
  let sorted := List.insertionSort (· ≤ ·) prices
  sorted.getD (sorted.length / 2) 0

/-- Relative-deviation test of spec §4.2 step 3: a price survives when its
absolute deviation from the median, in basis points of the median, is within
the configured threshold. -/
def withinThreshold (thresholdBp : Nat) (med p : Int) : Bool :=
  (p - med).natAbs * 10000 ≤ thresholdBp * med.natAbs

/-- Integer average of a price list. -/
def intAvg (xs : List Int) : Int := xs.sum / (xs.length : Int)

/-- Modelled from the spec: `aggregate(snapshot) -> ConsensusPrice |
InsufficientData` (spec §4.2). Stale samples are dropped; fewer distinct
surviving sources than the quorum yields `InsufficientData`; otherwise the
consensus price is the average of the samples surviving the median-based
outlier filter, with the dispersion metric the maximum surviving deviation
from the consensus. -/
def aggregate (cfg : AggregatorConfig) (now : Int) (symbol : String)
    (snapshot : List PriceSample) : AggregateResult :=
  if (distinctSources (snapshot.filter (isFresh cfg now))).length < cfg.quorum then
    AggregateResult.insufficientData
  else
    let fresh := snapshot.filter (isFresh cfg now)
    let med := medianOf (fresh.map PriceSample.price)
    let surviving := fresh.filter (fun s => withinThreshold cfg.outlierThresholdBp med s.price)
    let price := intAvg (surviving.map PriceSample.price)
    AggregateResult.consensus
      { symbol := symbol
        price := price
        timestamp := now
        numSamples := surviving.length
        dispersion := (surviving.map (fun s => (s.price - price).natAbs)).foldr max 0 }

/-! ## Concrete inputs used by witnesses and counterexamples -/

/-- Ledger statuses: two polls of `NOT_FOUND`, then `SUCCESS`. -/
def gPollOk : Nat → TxStatus := fun i => if i < 2 then TxStatus.NOT_FOUND else TxStatus.SUCCESS

/-- Ledger statuses: `NOT_FOUND` on every poll. -/
def gPollNF : Nat → TxStatus := fun _ => TxStatus.NOT_FOUND

/-- A wrapped function failing identically on every attempt. -/
def fnErrAll : Nat → Except PubError PublishResult := fun _ => Except.error PubError.noHash

/-- A distinct transport error per attempt index. -/
def errAt : Nat → PubError := fun i => PubError.transport (toString i)

/-- A wrapped function failing with `errAt i` on attempt `i`. -/
def fnErrSeq : Nat → Except PubError PublishResult := fun i => Except.error (errAt i)

/-- Legacy publish parameters: no proof, no public inputs. -/
def pLegacy : PublishParams :=
  { assetId := "TSLA", price := 1000000000, timestamp := 1700000000,
    commit := "c0ffee", proof := none, proofPublicInputs := none }

/-- Publish parameters carrying both a proof and its public inputs. -/
def pZK : PublishParams := { pLegacy with proof := some "aabb", proofPublicInputs := some "0102" }

/-- Publish parameters carrying a proof but no public inputs. -/
def pProofOnly : PublishParams := { pLegacy with proof := some "aabb" }

/-- Attempt environment: send succeeds with the given hash and the ledger
confirms immediately. -/
def envOkHash (h : String) : AttemptEnv :=
  { sendResult := Except.ok (some h), txStatus := fun _ => TxStatus.SUCCESS }

/-- Attempt environment: send succeeds but every status poll returns
`NOT_FOUND`, so the confirmation wait times out. -/
def envStuck : AttemptEnv :=
  { sendResult := Except.ok (some "hash1"), txStatus := fun _ => TxStatus.NOT_FOUND }

/-- Attempt environment: send succeeds but the ledger reports the
transaction `FAILED`. -/
def envRejected : AttemptEnv :=
  { sendResult := Except.ok (some "hash1"), txStatus := fun _ => TxStatus.FAILED }

/-- Every attempt succeeds, hash `hash1` (models a first `publishToOracle`
call whose submission confirms at once). -/
def envFirstCall : Nat → AttemptEnv := fun _ => envOkHash "hash1"

/-- Every attempt succeeds, hash `hash2` (models a second, independent
`publishToOracle` call for the same params). -/
def envSecondCall : Nat → AttemptEnv := fun _ => envOkHash "hash2"

/-- Attempt 0 times out waiting for confirmation; attempt 1 confirms. -/
def envTimeoutThenOk : Nat → AttemptEnv :=
  fun n => if n = 0 then envStuck else envOkHash "hash2"

/-- Attempt 0 is rejected on-chain; attempt 1 confirms. -/
def envRejectThenOk : Nat → AttemptEnv :=
  fun n => if n = 0 then envRejected else envOkHash "hash2"

/-- Every attempt times out waiting for confirmation. -/
def envAllStuck : Nat → AttemptEnv := fun _ => envStuck

/-- Every attempt fails in transport with a distinct error. -/
def envAllTransport : Nat → AttemptEnv :=
  fun n => { sendResult := Except.error (errAt n), txStatus := fun _ => TxStatus.SUCCESS }

/-- Aggregator configuration with quorum 3 (the spec's example). -/
def cfg3 : AggregatorConfig := { quorum := 3, stalenessWindow := 60, outlierThresholdBp := 200 }

/-- A fresh sample from source `alpha`. -/
def sampleA : PriceSample :=
  { symbol := "TSLA", source := "alpha", price := 1000000000, observedAt := 100, nonce := none }

/-- A fresh sample from source `beta`. -/
def sampleB : PriceSample :=
  { symbol := "TSLA", source := "beta", price := 1000500000, observedAt := 101, nonce := none }

/-! ## Lemmas about the confirmation loop -/

/-- Adding fuel beyond `maxAttempts - attempts` never changes the loop's
outcome: the `attempts < maxAttempts` guard always fails before the fuel
runs out, so the fuel-indexed embedding coincides with the source's
unbounded-fuel `while` loop. -/
lemma waitLoop_fuel_stable (getTx : Nat → TxStatus) :
    ∀ fuel k res a, maxAttempts - a ≤ fuel →
      waitLoop getTx (fuel + k) res a = waitLoop getTx fuel res a := by
  intro fuel
  induction fuel with
  | zero =>
    intro k res a ha
    rw [Nat.zero_add]
    cases k with
    | zero => rfl
    | succ k =>
      show waitLoop getTx (k + 1) res a = (res, a)
      rw [waitLoop, if_neg]
      rintro ⟨-, hlt⟩
      omega
  | succ f ih =>
    intro k res a ha
    have hk : f + 1 + k = (f + k) + 1 := by omega
    rw [hk, waitLoop, waitLoop]
    by_cases hg : res = TxStatus.NOT_FOUND ∧ a < maxAttempts
    · rw [if_pos hg, if_pos hg]
      exact ih k (getTx (a + 1)) (a + 1) (by omega)
    · rw [if_neg hg, if_neg hg]

/-- Running the loop from state `(getTx a, a)` when every status up to just
before `K` is `NOT_FOUND` and the status at `K` is not: the loop stops
exactly at `(getTx K, K)`. -/
lemma waitLoop_run (getTx : Nat → TxStatus) (K : Nat) (hK : K ≤ maxAttempts)
    (hNF : ∀ i, i < K → getTx i = TxStatus.NOT_FOUND)
    (hKres : getTx K ≠ TxStatus.NOT_FOUND) :
    ∀ fuel a, a ≤ K → maxAttempts - a ≤ fuel →
      waitLoop getTx fuel (getTx a) a = (getTx K, K) := by
  intro fuel
  induction fuel with
  | zero =>
    intro a haK hfuel
    have : a = K := by omega
    subst this
    rfl
  | succ f ih =>
    intro a haK hfuel
    rcases Nat.lt_or_ge a K with hlt | hge
    · rw [waitLoop, if_pos ⟨hNF a hlt, by omega⟩]
      exact ih (a + 1) (by omega) (by omega)
    · have : a = K := by omega
      subst this
      rw [waitLoop, if_neg]
      rintro ⟨hres, -⟩
      exact hKres hres

/-- Running the loop when every queried status within the bound is
`NOT_FOUND`: the loop exhausts the attempt bound and ends in
`(NOT_FOUND, maxAttempts)`. -/
lemma waitLoop_allNF (getTx : Nat → TxStatus)
    (hNF : ∀ i, i ≤ maxAttempts → getTx i = TxStatus.NOT_FOUND) :
    ∀ fuel a, a ≤ maxAttempts → maxAttempts - a ≤ fuel →
      waitLoop getTx fuel (getTx a) a = (TxStatus.NOT_FOUND, maxAttempts) := by
  intro fuel
  induction fuel with
  | zero =>
    intro a ha hfuel
    have : a = maxAttempts := by omega
    subst this
    show (getTx maxAttempts, maxAttempts) = _
    rw [hNF maxAttempts le_rfl]
  | succ f ih =>
    intro a ha hfuel
    rcases Nat.lt_or_ge a maxAttempts with hlt | hge
    · rw [waitLoop, if_pos ⟨hNF a (by omega), hlt⟩]
      exact ih (a + 1) (by omega) (by omega)
    · have : a = maxAttempts := by omega
      subst this
      rw [waitLoop, if_neg]
      · rw [hNF maxAttempts le_rfl]
      · rintro ⟨-, hlt⟩
        omega

/-- The final `attempts` counter never exceeds `maxAttempts`. -/
lemma waitLoop_snd_le (getTx : Nat → TxStatus) :
    ∀ fuel res a, a ≤ maxAttempts → (waitLoop getTx fuel res a).2 ≤ maxAttempts := by
  intro fuel
  induction fuel with
  | zero => intro res a ha; exact ha
  | succ f ih =>
    intro res a ha
    rw [waitLoop]
    by_cases hg : res = TxStatus.NOT_FOUND ∧ a < maxAttempts
    · rw [if_pos hg]
      exact ih (getTx (a + 1)) (a + 1) (by omega)
    · rw [if_neg hg]
      exact ha

/-! ## Lemmas about the retry wrapper -/

/-- `retry` only ever consults the wrapped function on the attempts
`attempt, …, attempt + retries`: two functions agreeing there produce the
same outcome, i.e. the wrapper invokes the body at most `retries + 1`
times. -/
lemma retry_frame {α : Type} (fn g : Nat → Except PubError α) :
    ∀ r a, (∀ i, a ≤ i → i ≤ a + r → fn i = g i) → retry fn r a = retry g r a := by
  intro r
  induction r with
  | zero =>
    intro a h
    unfold retry
    rw [h a le_rfl (by omega)]
  | succ r ih =>
    intro a h
    unfold retry
    rw [h a le_rfl (by omega)]
    cases g a with
    | ok v => rfl
    | error e => exact ih (a + 1) (fun i h1 h2 => h i (by omega) (by omega))

/-- When every consulted attempt fails, `retry` re-throws the error of the
last attempt, `attempt + retries`. -/
lemma retry_exhaust {α : Type} (fn : Nat → Except PubError α) (e : Nat → PubError) :
    ∀ r a, (∀ i, a ≤ i → i ≤ a + r → fn i = Except.error (e i)) →
      retry fn r a = Except.error (e (a + r)) := by
  intro r
  induction r with
  | zero =>
    intro a h
    unfold retry
    rw [h a le_rfl (by omega)]
    rfl
  | succ r ih =>
    intro a h
    unfold retry
    rw [h a le_rfl (by omega)]
    show retry fn r (a + 1) = Except.error (e (a + (r + 1)))
    have := ih (a + 1) (fun i h1 h2 => h i (by omega) (by omega))
    have harith : a + 1 + r = a + (r + 1) := by omega
    rw [harith] at this
    exact this

/-! ## Lemmas about the instrumented retry wrapper -/

/-- A successful first attempt short-circuits `retryRun`. -/
lemma retryRun_ok (fn : Nat → Except PubError PublishResult × List SubmitCall)
    (r a : Nat) (v : PublishResult) (tr : List SubmitCall)
    (hfa : fn a = (Except.ok v, tr)) : retryRun fn r a = (Except.ok v, tr) := by
  unfold retryRun
  rw [hfa]

/-- A failing attempt with no retries left ends `retryRun` with that
attempt's error and trace. -/
lemma retryRun_error_last (fn : Nat → Except PubError PublishResult × List SubmitCall)
    (a : Nat) (e : PubError) (tr : List SubmitCall)
    (hfa : fn a = (Except.error e, tr)) :
    retryRun fn 0 a = (Except.error e, tr) := by
  unfold retryRun
  rw [hfa]

/-- A failing attempt with retries left makes `retryRun` recurse, prepending
the failing attempt's trace. -/
lemma retryRun_error_step (fn : Nat → Except PubError PublishResult × List SubmitCall)
    (r a : Nat) (e : PubError) (tr : List SubmitCall)
    (hfa : fn a = (Except.error e, tr)) :
    retryRun fn (r + 1) a =
      ((retryRun fn r (a + 1)).1, tr ++ (retryRun fn r (a + 1)).2) := by
  conv_lhs => unfold retryRun
  rw [hfa]

/-- Every element of the trace of `retryRun` comes from the trace of one of
the attempts. -/
lemma retryRun_mem (fn : Nat → Except PubError PublishResult × List SubmitCall)
    (P : SubmitCall → Prop) (hP : ∀ n c, c ∈ (fn n).2 → P c) :
    ∀ r a c, c ∈ (retryRun fn r a).2 → P c := by
  intro r
  induction r with
  | zero =>
    intro a c hc
    rcases hq : fn a with ⟨res, tr⟩
    cases res with
    | ok v =>
      rw [retryRun_ok fn 0 a v tr hq] at hc
      exact hP a c (by rw [hq]; exact hc)
    | error e =>
      rw [retryRun_error_last fn a e tr hq] at hc
      exact hP a c (by rw [hq]; exact hc)
  | succ r ih =>
    intro a c hc
    rcases hq : fn a with ⟨res, tr⟩
    cases res with
    | ok v =>
      rw [retryRun_ok fn (r + 1) a v tr hq] at hc
      exact hP a c (by rw [hq]; exact hc)
    | error e =>
      rw [retryRun_error_step fn r a e tr hq] at hc
      simp only [List.mem_append] at hc
      rcases hc with hl | hr
      · exact hP a c (by rw [hq]; exact hl)
      · exact ih (a + 1) c hr

/-- The trace of `retryRun` holds at most one submission per attempt made,
hence at most `retries + 1` submissions. -/
lemma retryRun_len_le (fn : Nat → Except PubError PublishResult × List SubmitCall)
    (hfn : ∀ n, ((fn n).2).length ≤ 1) :
    ∀ r a, ((retryRun fn r a).2).length ≤ r + 1 := by
  intro r
  induction r with
  | zero =>
    intro a
    have h1 := hfn a
    rcases hq : fn a with ⟨res, tr⟩
    rw [hq] at h1
    simp at h1
    cases res with
    | ok v => rw [retryRun_ok fn 0 a v tr hq]; simpa using h1
    | error e => rw [retryRun_error_last fn a e tr hq]; simpa using h1
  | succ r ih =>
    intro a
    have h1 := hfn a
    rcases hq : fn a with ⟨res, tr⟩
    rw [hq] at h1
    simp at h1
    cases res with
    | ok v =>
      rw [retryRun_ok fn (r + 1) a v tr hq]
      simp
      omega
    | error e =>
      rw [retryRun_error_step fn r a e tr hq]
      have h2 := ih (a + 1)
      simp [List.length_append]
      omega

/-- If every attempt's trace is nonempty, so is the trace of `retryRun`. -/
lemma retryRun_len_ge_one (fn : Nat → Except PubError PublishResult × List SubmitCall)
    (hfn : ∀ n, 1 ≤ ((fn n).2).length) :
    ∀ r a, 1 ≤ ((retryRun fn r a).2).length := by
  intro r a
  have h1 := hfn a
  rcases hq : fn a with ⟨res, tr⟩
  rw [hq] at h1
  simp at h1
  cases res with
  | ok v => rw [retryRun_ok fn r a v tr hq]; simpa using h1
  | error e =>
    cases r with
    | zero => rw [retryRun_error_last fn a e tr hq]; simpa using h1
    | succ r =>
      rw [retryRun_error_step fn r a e tr hq]
      simp [List.length_append]
      omega

/-- If an attempt's trace begins with a call, the whole trace of `retryRun`
from that attempt begins with the same call. -/
lemma retryRun_head (fn : Nat → Except PubError PublishResult × List SubmitCall)
    (r a : Nat) (c : SubmitCall) (tl : List SubmitCall)
    (h : (fn a).2 = c :: tl) :
    ∃ rest, (retryRun fn r a).2 = c :: rest := by
  rcases hq : fn a with ⟨res, tr⟩
  rw [hq] at h
  simp at h
  subst h
  cases res with
  | ok v => exact ⟨tl, by rw [retryRun_ok fn r a v _ hq]⟩
  | error e =>
    cases r with
    | zero => exact ⟨tl, by rw [retryRun_error_last fn a e _ hq]⟩
    | succ r =>
      refine ⟨tl ++ (retryRun fn r (a + 1)).2, ?_⟩
      rw [retryRun_error_step fn r a e _ hq]
      simp

/-- When every attempt up to the retry bound fails and each attempt makes
exactly one submission, `retryRun` propagates the last attempt's error and
its trace has exactly one submission per attempt. -/
lemma retryRun_exhaust (fn : Nat → Except PubError PublishResult × List SubmitCall)
    (e : Nat → PubError) (hlen : ∀ n, ((fn n).2).length = 1) :
    ∀ r a, (∀ i, a ≤ i → i ≤ a + r → (fn i).1 = Except.error (e i)) →
      (retryRun fn r a).1 = Except.error (e (a + r)) ∧
      ((retryRun fn r a).2).length = r + 1 := by
  intro r
  induction r with
  | zero =>
    intro a h
    have h0 := h a le_rfl (by omega)
    have h1 := hlen a
    rcases hq : fn a with ⟨res, tr⟩
    rw [hq] at h0 h1
    simp at h0 h1
    subst h0
    rw [retryRun_error_last fn a _ tr hq]
    simpa using h1
  | succ r ih =>
    intro a h
    have h0 := h a le_rfl (by omega)
    have h1 := hlen a
    rcases hq : fn a with ⟨res, tr⟩
    rw [hq] at h0 h1
    simp at h0 h1
    subst h0
    have hnext := ih (a + 1) (fun i hi1 hi2 => h i (by omega) (by omega))
    have harith : a + 1 + r = a + (r + 1) := by omega
    rw [harith] at hnext
    rw [retryRun_error_step fn r a _ tr hq]
    constructor
    · exact hnext.1
    · simp [List.length_append]
      omega

/-! ## Lemmas about a single publish attempt -/

/-- A boolean that is not true is false. -/
lemma bool_not_true {b : Bool} (h : ¬ b = true) : b = false := by
  cases b with
  | false => rfl
  | true => exact absurd rfl h

/-- When both proof fields are truthy, one attempt takes the proof branch:
no submission call, mock success. -/
lemma publishAttempt_proof (params : PublishParams) (env : AttemptEnv)
    (htr : (truthy params.proof && truthy params.proofPublicInputs) = true) :
    publishAttempt params env =
      (Except.ok { txHash := mockTxHash (params.proof.getD ""), success := true }, []) := by
  unfold publishAttempt
  rw [htr]
  simp

/-- When the proof condition is falsy, one attempt records exactly the
legacy `set_asset_price` call, whatever the environment does. -/
lemma publishAttempt_legacy (params : PublishParams) (env : AttemptEnv)
    (hleg : (truthy params.proof && truthy params.proofPublicInputs) = false) :
    (publishAttempt params env).2 = [legacyCall params] := by
  unfold publishAttempt
  rw [hleg]
  simp only [Bool.false_eq_true, if_false]
  cases hsr : env.sendResult with
  | error e => rfl
  | ok o =>
    cases o with
    | none => rfl
    | some h =>
      cases hwt : waitForTransaction env.txStatus with
      | error e2 => rfl
      | ok u => rfl

/-- Every submission call one attempt records is the legacy call built from
the attempt's params (the proof branch records none at all). -/
lemma publishAttempt_mem (params : PublishParams) (env : AttemptEnv) :
    ∀ c, c ∈ (publishAttempt params env).2 → c = legacyCall params := by
  intro c hc
  by_cases htr : (truthy params.proof && truthy params.proofPublicInputs) = true
  · rw [publishAttempt_proof params env htr] at hc
    simp at hc
  · rw [publishAttempt_legacy params env (bool_not_true htr)] at hc
    simpa using hc

/-! ## Claim theorems -/

/-- C1, counterexample. The claim says a second `publishToOracle` call with
the same `PublishParams`, made while the first publication is in a
non-Failed state, returns the existing record and performs at most one
ledger submission attempt sequence in total. The code keeps no publication
records: a first call that submits and confirms at once (`envFirstCall`)
performs one submission, and a second call with the identical params
(`envSecondCall`) performs another, so two submission attempt sequences
occur in total, not at most one. -/
theorem publish_duplicate_submission_cex :
    (publishToOracle pLegacy envFirstCall).1 =
      Except.ok { txHash := "hash1", success := true } ∧
    ((publishToOracle pLegacy envFirstCall).2).length = 1 ∧
    ((publishToOracle pLegacy envSecondCall).2).length = 1 ∧
    ¬ (((publishToOracle pLegacy envFirstCall).2).length +
        ((publishToOracle pLegacy envSecondCall).2).length ≤ 1) := by
  refine ⟨rfl, rfl, rfl, by decide⟩

/-- C1, amended. `SorobanPublisher` maintains no `PublicationRecord` or
idempotency state: every `publishToOracle` call for params that take the
legacy path performs its own full submission attempt sequence with at least
one ledger submission, so a second call with the same params yields at
least two submissions in total rather than returning an existing record. -/
theorem publish_second_call_resubmits (params : PublishParams)
    (env env' : Nat → AttemptEnv)
    (hleg : (truthy params.proof && truthy params.proofPublicInputs) = false) :
    1 ≤ ((publishToOracle params env).2).length ∧
    1 ≤ ((publishToOracle params env').2).length ∧
    2 ≤ (((publishToOracle params env).2) ++ ((publishToOracle params env').2)).length := by
  have key : ∀ e2 : Nat → AttemptEnv, 1 ≤ ((publishToOracle params e2).2).length := by
    intro e2
    exact retryRun_len_ge_one (fun n => publishAttempt params (e2 n))
      (fun n => by rw [publishAttempt_legacy params (e2 n) hleg]; simp) maxRetries 0
  have h1 := key env
  have h2 := key env'
  refine ⟨h1, h2, ?_⟩
  simp only [List.length_append]
  omega

/-- C1, amended: witness at the concrete duplicate-call scenario. -/
theorem publish_second_call_resubmits_witness :
    1 ≤ ((publishToOracle pLegacy envFirstCall).2).length ∧
    1 ≤ ((publishToOracle pLegacy envSecondCall).2).length ∧
    2 ≤ (((publishToOracle pLegacy envFirstCall).2) ++
          ((publishToOracle pLegacy envSecondCall).2)).length :=
  publish_second_call_resubmits pLegacy envFirstCall envSecondCall rfl

/-- C2. For params whose `proof` and `proofPublicInputs` are both present
(non-empty strings), `publishToOracle` performs no ledger submission call
(empty trace), consults the ledger environment not at all (the result is
the same for every environment), and returns success with hash `zk_`
followed by the hex re-encoding of the bytes of the first 32 hex characters
of the proof. -/
theorem publish_proof_path_mock_success (params : PublishParams) (p q : String)
    (hp : params.proof = some p) (hpne : p ≠ "")
    (hq : params.proofPublicInputs = some q) (hqne : q ≠ "")
    (env env' : Nat → AttemptEnv) :
    publishToOracle params env =
      (Except.ok { txHash := "zk_" ++ String.mk (hexEncode (hexDecode (p.toList.take 32))),
                   success := true }, []) ∧
    publishToOracle params env = publishToOracle params env' := by
  have htr : (truthy params.proof && truthy params.proofPublicInputs) = true := by
    rw [hp, hq]
    simp [truthy, hpne, hqne]
  have hval : ∀ e2 : Nat → AttemptEnv, publishToOracle params e2 =
      (Except.ok { txHash := "zk_" ++ String.mk (hexEncode (hexDecode (p.toList.take 32))),
                   success := true }, []) := by
    intro e2
    have h0 := publishAttempt_proof params (e2 0) htr
    have hmk : mockTxHash (params.proof.getD "") =
        "zk_" ++ String.mk (hexEncode (hexDecode (p.toList.take 32))) := by
      rw [hp]
      rfl
    rw [hmk] at h0
    exact retryRun_ok (fun n => publishAttempt params (e2 n)) maxRetries 0 _ _ h0
  exact ⟨hval env, (hval env).trans (hval env').symm⟩

/-- C2: witness — a concrete proof-bearing params value yields the mock
hash `zk_aabb` and an empty submission trace. -/
theorem publish_proof_path_mock_success_witness :
    publishToOracle pZK envFirstCall =
      (Except.ok { txHash := "zk_aabb", success := true }, []) := by
  have h := (publish_proof_path_mock_success pZK "aabb" "0102" rfl (by decide) rfl (by decide)
      envFirstCall envFirstCall).1
  rw [h]
  rfl

/-- C3. The confirmation state machine of `waitForTransaction`: a ledger
that answers `NOT_FOUND` for the first `K` queries (`K` within the polling
bound) and then `SUCCESS` makes the wait complete successfully; a ledger
that never resolves within the polling bound makes the wait end in the
timeout error; and a `NOT_FOUND` answer with attempts remaining always
triggers exactly one more poll rather than terminating the loop. -/
theorem waitForTransaction_confirmation_behavior (getTx : Nat → TxStatus) (K : Nat) :
    (K ≤ maxAttempts → (∀ i, i < K → getTx i = TxStatus.NOT_FOUND) →
      getTx K = TxStatus.SUCCESS → waitForTransaction getTx = Except.ok ()) ∧
    ((∀ i, i ≤ maxAttempts → getTx i = TxStatus.NOT_FOUND) →
      waitForTransaction getTx = Except.error PubError.confirmationTimeout) ∧
    (∀ fuel res a, res = TxStatus.NOT_FOUND → a < maxAttempts →
      waitLoop getTx (fuel + 1) res a = waitLoop getTx fuel (getTx (a + 1)) (a + 1)) := by
  refine ⟨?_, ?_, ?_⟩
  · intro hK hNF hS
    have hrun := waitLoop_run getTx K hK hNF
      (by rw [hS]; decide) maxAttempts 0 (by omega) (by omega)
    unfold waitForTransaction
    rw [hrun, hS]
    rfl
  · intro hNF
    have hrun := waitLoop_allNF getTx hNF maxAttempts 0 (by omega) (by omega)
    unfold waitForTransaction
    rw [hrun]
    rfl
  · intro fuel res a hres ha
    rw [waitLoop, if_pos ⟨hres, ha⟩]

/-- C3: witness — two `NOT_FOUND` polls then `SUCCESS` confirms; an
all-`NOT_FOUND` ledger times out; a `NOT_FOUND` state with attempts left
steps the loop once more. -/
theorem waitForTransaction_confirmation_behavior_witness :
    waitForTransaction gPollOk = Except.ok () ∧
    waitForTransaction gPollNF = Except.error PubError.confirmationTimeout ∧
    waitLoop gPollNF (19 + 1) TxStatus.NOT_FOUND 0 = waitLoop gPollNF 19 (gPollNF 1) 1 := by
  refine ⟨?_, ?_, ?_⟩
  · exact (waitForTransaction_confirmation_behavior gPollOk 2).1 (by decide)
      (fun i hi => by simp [gPollOk, hi]) (by decide)
  · exact (waitForTransaction_confirmation_behavior gPollNF 0).2.1 (fun i _ => rfl)
  · exact (waitForTransaction_confirmation_behavior gPollNF 0).2.2 19 TxStatus.NOT_FOUND 0
      rfl (by decide)

/-- C4, counterexample. The claim says confirmation timeout and on-chain
rejection are terminal: `publishToOracle` surfaces them without
re-submitting, and the retry mechanism never applies to them. In the code,
`waitForTransaction` runs inside the retried closure, so both errors
trigger a full re-submission: with `envTimeoutThenOk`, attempt 0 ends in
`confirmationTimeout`, yet the publisher submits a second time and reports
overall success with the second hash; with `envRejectThenOk`, attempt 0
ends in the on-chain failure error and a second submission follows. -/
theorem publish_retries_terminal_outcomes_cex :
    (publishAttempt pLegacy (envTimeoutThenOk 0)).1 =
      Except.error PubError.confirmationTimeout ∧
    ((publishToOracle pLegacy envTimeoutThenOk).2).length = 2 ∧
    (publishToOracle pLegacy envTimeoutThenOk).1 =
      Except.ok { txHash := "hash2", success := true } ∧
    (publishAttempt pLegacy (envRejectThenOk 0)).1 =
      Except.error PubError.txFailedOnChain ∧
    ((publishToOracle pLegacy envRejectThenOk).2).length = 2 := by
  exact ⟨rfl, rfl, rfl, rfl, rfl⟩

/-- C4, amended. Confirmation timeout and on-chain rejection errors
propagate out of the submit-and-confirm closure into the retry wrapper,
which re-runs the whole sequence — re-submitting — while retries remain;
only when the bounded retries are exhausted is the failure surfaced to the
caller, carrying the last attempt's error, after exactly one submission
per attempt. -/
theorem publish_terminal_errors_enter_retry (params : PublishParams)
    (env : Nat → AttemptEnv)
    (hleg : (truthy params.proof && truthy params.proofPublicInputs) = false) :
    (((publishAttempt params (env 0)).1 = Except.error PubError.confirmationTimeout ∨
      (publishAttempt params (env 0)).1 = Except.error PubError.txFailedOnChain) →
      2 ≤ ((publishToOracle params env).2).length) ∧
    (∀ e : Nat → PubError,
      (∀ i, i ≤ maxRetries → (publishAttempt params (env i)).1 = Except.error (e i)) →
      (publishToOracle params env).1 = Except.error (e maxRetries) ∧
      ((publishToOracle params env).2).length = maxRetries + 1) := by
  have hlen : ∀ n, ((publishAttempt params (env n)).2).length = 1 := by
    intro n
    rw [publishAttempt_legacy params (env n) hleg]
    rfl
  constructor
  · intro h0
    have he : ∃ e0, (publishAttempt params (env 0)).1 = Except.error e0 := by
      rcases h0 with h | h
      exacts [⟨_, h⟩, ⟨_, h⟩]
    rcases he with ⟨e0, he0⟩
    rcases hq : publishAttempt params (env 0) with ⟨res, tr⟩
    rw [hq] at he0
    simp at he0
    subst he0
    have htr : tr = [legacyCall params] := by
      have h2 := publishAttempt_legacy params (env 0) hleg
      rw [hq] at h2
      simpa using h2
    show 2 ≤ ((retryRun (fun n => publishAttempt params (env n)) maxRetries 0).2).length
    rw [show maxRetries = 2 + 1 from rfl,
      retryRun_error_step (fun n => publishAttempt params (env n)) 2 0 e0 tr hq]
    have hge := retryRun_len_ge_one (fun n => publishAttempt params (env n))
      (fun n => by rw [hlen n]) 2 1
    simp only [List.length_append, htr]
    simp
    omega
  · intro e he
    have h2 := retryRun_exhaust (fun n => publishAttempt params (env n)) e hlen
      maxRetries 0 (fun i hi1 hi2 => he i (by omega))
    have harith : 0 + maxRetries = maxRetries := by omega
    rw [harith] at h2
    exact h2

/-- C4, amended: witness — every attempt times out; the overall result is
the timeout error after four submissions, at least two of which show the
re-submission. -/
theorem publish_terminal_errors_enter_retry_witness :
    2 ≤ ((publishToOracle pLegacy envAllStuck).2).length ∧
    (publishToOracle pLegacy envAllStuck).1 = Except.error PubError.confirmationTimeout ∧
    ((publishToOracle pLegacy envAllStuck).2).length = maxRetries + 1 := by
  have h := publish_terminal_errors_enter_retry pLegacy envAllStuck rfl
  exact ⟨h.1 (Or.inl rfl),
    (h.2 (fun _ => PubError.confirmationTimeout) (fun i _ => rfl)).1,
    (h.2 (fun _ => PubError.confirmationTimeout) (fun i _ => rfl)).2⟩

/-- C5, counterexample. The claim says an Attestation carrying a proof is
submitted via the proof-verifying entry point. `pProofOnly` carries a proof
(`"aabb"`) but no public inputs; the code submits it via the legacy
`set_asset_price` entry point and never calls `set_price_with_proof`. -/
theorem publish_proof_without_inputs_goes_legacy_cex :
    pProofOnly.proof = some "aabb" ∧
    pProofOnly.proofPublicInputs = none ∧
    (publishToOracle pProofOnly envFirstCall).2 = [legacyCall pProofOnly] ∧
    (∀ c, c ∈ (publishToOracle pProofOnly envFirstCall).2 →
      c.entry ≠ EntryPoint.set_price_with_proof) := by
  refine ⟨rfl, rfl, rfl, by decide⟩

/-- C5, amended. Entry-point selection keys on `proof` and
`proofPublicInputs` being both truthy, not on proof availability alone:
when both are truthy the proof branch is taken, which performs no contract
call at all (the `set_price_with_proof` call is commented out) and returns
a simulated success with the mock hash; in every other case — including a
proof without public inputs — the attestation is submitted via the legacy
`set_asset_price` entry point, and every submission call made is a legacy
call. -/
theorem publish_entry_selection (params : PublishParams) (env : Nat → AttemptEnv) :
    ((truthy params.proof && truthy params.proofPublicInputs) = true →
      (publishToOracle params env).2 = [] ∧
      (publishToOracle params env).1 =
        Except.ok { txHash := mockTxHash (params.proof.getD ""), success := true }) ∧
    ((truthy params.proof && truthy params.proofPublicInputs) = false →
      (∃ rest, (publishToOracle params env).2 = legacyCall params :: rest) ∧
      ∀ c, c ∈ (publishToOracle params env).2 → c.entry = EntryPoint.set_asset_price) := by
  constructor
  · intro htr
    have h0 := publishAttempt_proof params (env 0) htr
    have heq := retryRun_ok (fun n => publishAttempt params (env n)) maxRetries 0 _ _ h0
    constructor
    · show (retryRun (fun n => publishAttempt params (env n)) maxRetries 0).2 = []
      rw [heq]
    · show (retryRun (fun n => publishAttempt params (env n)) maxRetries 0).1 = _
      rw [heq]
  · intro hleg
    constructor
    · exact retryRun_head (fun n => publishAttempt params (env n)) maxRetries 0 _ []
        (publishAttempt_legacy params (env 0) hleg)
    · intro c hc
      have heq := retryRun_mem (fun n => publishAttempt params (env n))
        (fun c => c = legacyCall params)
        (fun n c hm => publishAttempt_mem params (env n) c hm) maxRetries 0 c hc
      rw [heq]
      rfl

/-- C5, amended: witness — the proof-bearing params take the contract-free
mock branch; the legacy params submit via `set_asset_price`. -/
theorem publish_entry_selection_witness :
    ((publishToOracle pZK envFirstCall).2 = [] ∧
      (publishToOracle pZK envFirstCall).1 =
        Except.ok { txHash := mockTxHash (pZK.proof.getD ""), success := true }) ∧
    (∃ rest, (publishToOracle pLegacy envFirstCall).2 = legacyCall pLegacy :: rest) :=
  ⟨(publish_entry_selection pZK envFirstCall).1 rfl,
    ((publish_entry_selection pLegacy envFirstCall).2 rfl).1⟩

/-- C6. Every retryable branch is bounded: the retry wrapper consults the
wrapped submission function only on attempts `a, …, a + retries` — so with
`maxRetries = 3` at most `maxRetries + 1 = 4` invocations — the whole
`publishToOracle` run performs at most `maxRetries + 1` submissions, and
the confirmation wait issues at most `maxAttempts + 1 = 21` ledger status
queries. (All embedded functions are structurally recursive, so no
execution loops unboundedly.) -/
theorem retry_and_polling_bounded :
    (∀ (fn g : Nat → Except PubError PublishResult) (r a : Nat),
      (∀ i, a ≤ i → i ≤ a + r → fn i = g i) → retry fn r a = retry g r a) ∧
    maxRetries + 1 = 4 ∧
    (∀ (params : PublishParams) (env : Nat → AttemptEnv),
      ((publishToOracle params env).2).length ≤ maxRetries + 1) ∧
    (∀ getTx : Nat → TxStatus, waitQueries getTx ≤ maxAttempts + 1) ∧
    maxAttempts + 1 = 21 := by
  refine ⟨?_, rfl, ?_, ?_, rfl⟩
  · exact fun fn g r a h => retry_frame fn g r a h
  · intro params env
    apply retryRun_len_le
    intro n
    by_cases htr : (truthy params.proof && truthy params.proofPublicInputs) = true
    · rw [publishAttempt_proof params (env n) htr]
      simp
    · rw [publishAttempt_legacy params (env n) (bool_not_true htr)]
      simp
  · intro getTx
    have h := waitLoop_snd_le getTx maxAttempts (getTx 0) 0 (by omega)
    unfold waitQueries
    omega

/-- C6: witness — concrete instances of the three bounded quantities. -/
theorem retry_and_polling_bounded_witness :
    retry fnErrAll maxRetries 0 = retry fnErrAll maxRetries 0 ∧
    ((publishToOracle pLegacy envAllTransport).2).length ≤ maxRetries + 1 ∧
    waitQueries gPollNF ≤ maxAttempts + 1 :=
  ⟨retry_and_polling_bounded.1 fnErrAll fnErrAll maxRetries 0 (fun _ _ _ => rfl),
    retry_and_polling_bounded.2.2.1 pLegacy envAllTransport,
    retry_and_polling_bounded.2.2.2.1 gPollNF⟩

/-- C7. When every attempt up to the retry bound fails, the retry wrapper
propagates exactly the error produced by the final attempt,
`attempt + retries`, to its caller. -/
theorem retry_propagates_last_error :
    ∀ (fn : Nat → Except PubError PublishResult) (e : Nat → PubError) (r a : Nat),
      (∀ i, a ≤ i → i ≤ a + r → fn i = Except.error (e i)) →
      retry fn r a = Except.error (e (a + r)) :=
  fun fn e r a h => retry_exhaust fn e r a h

/-- C7: witness — four attempts failing with distinct errors; the error
surfaced is the one of attempt 3, the last. -/
theorem retry_propagates_last_error_witness :
    retry fnErrSeq maxRetries 0 = Except.error (errAt 3) :=
  retry_propagates_last_error fnErrSeq errAt maxRetries 0 (fun _ _ _ => rfl)

/-- C8. Across all retry attempts of one `publishToOracle` call, every
recorded submission call is the legacy call built from the input params:
in particular the `PublishParams` value used — commitment, price,
timestamp and proof included — is identical on every attempt and never
mutated between attempts. -/
theorem publish_params_immutable_across_retries (params : PublishParams)
    (env : Nat → AttemptEnv) :
    ∀ c, c ∈ (publishToOracle params env).2 →
      c = legacyCall params ∧ c.paramsUsed = params := by
  intro c hc
  have heq := retryRun_mem (fun n => publishAttempt params (env n))
    (fun c => c = legacyCall params)
    (fun n c hm => publishAttempt_mem params (env n) c hm) maxRetries 0 c hc
  refine ⟨heq, ?_⟩
  rw [heq]
  rfl

/-- C8: witness — in a run whose four attempts all fail in transport, the
recorded submission call carries exactly the input params. -/
theorem publish_params_immutable_across_retries_witness :
    legacyCall pLegacy ∈ (publishToOracle pLegacy envAllTransport).2 ∧
    (legacyCall pLegacy).paramsUsed = pLegacy :=
  ⟨by decide, (publish_params_immutable_across_retries pLegacy envAllTransport
    (legacyCall pLegacy) (by decide)).2⟩

/-- C9. A snapshot with fewer distinct non-stale sources than the
configured quorum makes `aggregate` return `InsufficientData` and never a
consensus price. The aggregator is modelled from the spec (§4.2): its
source is absent from the repository. -/
theorem aggregate_below_quorum_insufficient (cfg : AggregatorConfig) (now : Int)
    (symbol : String) (snapshot : List PriceSample)
    (h : (distinctSources (snapshot.filter (isFresh cfg now))).length < cfg.quorum) :
    aggregate cfg now symbol snapshot = AggregateResult.insufficientData ∧
    ∀ c, aggregate cfg now symbol snapshot ≠ AggregateResult.consensus c := by
  have hmain : aggregate cfg now symbol snapshot = AggregateResult.insufficientData := by
    unfold aggregate
    rw [if_pos h]
  refine ⟨hmain, fun c hc => ?_⟩
  rw [hmain] at hc
  exact AggregateResult.noConfusion hc

/-- C9: witness — two fresh sources under a quorum of three yield
`InsufficientData`. -/
theorem aggregate_below_quorum_insufficient_witness :
    aggregate cfg3 110 "TSLA" [sampleA, sampleB] = AggregateResult.insufficientData :=
  (aggregate_below_quorum_insufficient cfg3 110 "TSLA" [sampleA, sampleB] (by decide)).1

/-- C10. Params whose `proof` field is present but whose
`proofPublicInputs` field is absent take the legacy path: the first
submission is the legacy `set_asset_price` call and every submission of
the run uses that entry point — routing keys on the conjunction of both
fields, not on proof availability alone. -/
theorem publish_routing_requires_both_fields (params : PublishParams)
    (env : Nat → AttemptEnv)
    (_hsome : params.proof.isSome = true) (hq : params.proofPublicInputs = none) :
    (∃ rest, (publishToOracle params env).2 = legacyCall params :: rest) ∧
    ∀ c, c ∈ (publishToOracle params env).2 → c.entry = EntryPoint.set_asset_price := by
  have hleg : (truthy params.proof && truthy params.proofPublicInputs) = false := by
    rw [hq]
    simp [truthy]
  constructor
  · exact retryRun_head (fun n => publishAttempt params (env n)) maxRetries 0 _ []
      (publishAttempt_legacy params (env 0) hleg)
  · intro c hc
    have heq := retryRun_mem (fun n => publishAttempt params (env n))
      (fun c => c = legacyCall params)
      (fun n c hm => publishAttempt_mem params (env n) c hm) maxRetries 0 c hc
    rw [heq]
    rfl

/-- C10: witness — the proof-without-inputs params submit via the legacy
entry point. -/
theorem publish_routing_requires_both_fields_witness :
    (∃ rest, (publishToOracle pProofOnly envSecondCall).2 = legacyCall pProofOnly :: rest) ∧
    ∀ c, c ∈ (publishToOracle pProofOnly envSecondCall).2 →
      c.entry = EntryPoint.set_asset_price :=
  publish_routing_requires_both_fields pProofOnly envSecondCall rfl rfl

end NekoOracle
